import Mathlib

/-!
A shallow embedding of `scripts/make-constraint.py` from the
RNA-structure-motif-analysis repository, together with proofs of the
specification's claims about it.

Python strings are modelled as `String`/`List Char`, Python integers as
`Int`, Python list indexing (which wraps negative indices and raises on
out-of-range ones) as `Option`-valued access, and `sys.exit`/uncaught
exceptions as explicit outcome values.
-/

namespace MakeConstraint

/-- Resolve a Python index `i` into a sequence of length `n`:
nonnegative indices address from the front, negative indices wrap from
the back, anything else is an `IndexError` (`none`). -/
def pyIndex (n : Nat) (i : Int) : Option Nat :=
  if 0 ≤ i ∧ i < (n : Int) then some i.toNat
  else if -(n : Int) ≤ i ∧ i < 0 then some ((n : Int) + i).toNat
  else none

/-- Python `s[i]` on a character sequence. -/
def pyGet (s : List Char) (i : Int) : Option Char :=
  (pyIndex s.length i).bind (fun j => s[j]?)

/-- Python `s[i] = c` on a mutable character list. -/
def pySet (s : List Char) (i : Int) (c : Char) : Option (List Char) :=
  (pyIndex s.length i).map (fun j => s.set j c)

/-! ## `checkPairing` (Pair Validator, lines 67-83) -/

/-- The literal `canonical` set from `checkPairing`. -/
def canonical : List (Char × Char) :=
  [('A','U'),('A','T'),
   ('C','G'),
   ('G','U'),('G','T'),('G','C'),
   ('T','A'),('T','G'),
   ('U','A'),('U','G')]

/-- Whether `checkPairing` keeps the pair `p` against sequence `seq`:
the looked-up symbol pair is in the canonical set.  `false` also covers
the lookup itself failing. -/
def keptPair (seq : List Char) (p : Int × Int) : Bool :=
  match pyGet seq (p.1 - 1), pyGet seq (p.2 - 1) with
  | some a, some b => decide ((a, b) ∈ canonical)
  | _, _ => false

/-- Loop of `checkPairing`.  `acc` models the growing `pairs_filtered`
set (kept as a duplicate-free list in insertion order), `n` the
`n_noncanonical` counter.  `none` models an uncaught `IndexError` from
`seq[int(x)-1]` / `seq[int(y)-1]`. -/
def checkPairingAux (seq : List Char) :
    List (Int × Int) → List (Int × Int) → Nat → Option (List (Int × Int) × Nat)
  | [], acc, n => some (acc, n)
  | p :: rest, acc, n =>
    match pyGet seq (p.1 - 1), pyGet seq (p.2 - 1) with
    | some a, some b =>
      if (a, b) ∈ canonical then
        checkPairingAux seq rest (if p ∈ acc then acc else acc ++ [p]) n
      else
        checkPairingAux seq rest acc (n + 1)
    | _, _ => none

/-- `checkPairing(seq, pairs)`: filters `pairs` down to canonical base
pairs, returning the filtered collection and the count of dropped
(non-canonical) entries that the script reports as a diagnostic. -/
def checkPairing (seq : List Char) (pairs : List (Int × Int)) :
    Option (List (Int × Int) × Nat) :=
  checkPairingAux seq pairs [] 0

/-! ## `adjustPairs` (Coordinate Remapper, lines 55-64) -/

/-- `adjustPairs(pairs, unpaired, offset)`: shift every coordinate by
`offset`. -/
def adjustPairs (pairs : List (Int × Int)) (unpaired : List Int) (offset : Int) :
    List (Int × Int) × List Int :=
  (pairs.map (fun p => (p.1 + offset, p.2 + offset)),
   unpaired.map (fun ss => ss + offset))

/-! ## `makeRNAstructureConstraint` (Grammar A serializer, lines 88-105) -/

/-- `makeRNAstructureConstraint(pairs, unpaired)`: the structured
section-based constraint text, built by successive string appends
exactly as in the script. -/
def makeRNAstructureConstraint (pairs : List (Int × Int)) (unpaired : List Int) :
    String :=
  let const := ""
  let const := const ++ "DS:\n-1\n"
  let const := const ++ "SS:\n"
  let const := unpaired.foldl (fun c ss => c ++ toString ss ++ "\n") const
  let const := const ++ "-1\n"
  let const := const ++ "Mod:\n-1\n"
  let const := const ++ "Pairs:\n"
  let const := pairs.foldl (fun c p => c ++ toString p.1 ++ " " ++ toString p.2 ++ "\n") const
  let const := const ++ "-1 -1\n"
  let const := const ++ "FMN:\n-1\n"
  let const := const ++ "Forbids:\n-1 -1"
  const

/-! ## `makeViennaRNAConstraint` (Grammar B serializer, lines 107-127) -/

/-- The pair loop of `makeViennaRNAConstraint`: for each pair the lower
coordinate (via the `if x < y` swap) gets a left bracket and the higher
one a right bracket.  `none` models an `IndexError`. -/
def applyPairs : List (Int × Int) → List Char → Option (List Char)
  | [], const => some const
  | p :: rest, const =>
    let q := if p.1 < p.2 then (p.1 - 1, p.2 - 1) else (p.2 - 1, p.1 - 1)
    match pySet const q.1 '(' with
    | none => none
    | some c1 =>
      match pySet c1 q.2 ')' with
      | none => none
      | some c2 => applyPairs rest c2

/-- The unpaired loop of `makeViennaRNAConstraint`: each unpaired
position gets a forced-unpaired marker at `ss - 1`. -/
def applyUnpaired : List Int → List Char → Option (List Char)
  | [], const => some const
  | ss :: rest, const =>
    match pySet const (ss - 1) 'x' with
    | none => none
    | some c => applyUnpaired rest c

/-- `makeViennaRNAConstraint(pairs, unpaired, length)`: a dot-initialized
annotation string of the full-sequence length, pair markers written
first, unpaired markers after. -/
def makeViennaRNAConstraint (pairs : List (Int × Int)) (unpaired : List Int)
    (length : Nat) : Option String :=
  (applyPairs pairs (List.replicate length '.')).bind (fun c1 =>
    (applyUnpaired unpaired c1).map (fun c2 => String.mk c2))

/-! ## Python string primitives

The script manipulates lines with `str.strip`, `str.startswith`,
`str.replace` and `re.split(r"\s+", ...)`.  A Python string is modelled
as a `List Char` and these primitives as structural recursions. -/

/-- Python `s.strip()`: drop leading and trailing whitespace. -/
def stripChars (s : List Char) : List Char :=
  ((s.dropWhile Char.isWhitespace).reverse.dropWhile Char.isWhitespace).reverse

/-- Helper for `wsFields`: `cur` holds the reversed current field. -/
def wsFieldsAux : List Char → List Char → List (List Char)
  | [], cur => if cur = [] then [] else [cur.reverse]
  | c :: rest, cur =>
    if c.isWhitespace then
      if cur = [] then wsFieldsAux rest []
      else cur.reverse :: wsFieldsAux rest []
    else wsFieldsAux rest (c :: cur)

/-- Python `re.split(r"\s+", s)` on a stripped string: the maximal runs
of non-whitespace characters, in order. -/
def wsFields (s : List Char) : List (List Char) :=
  wsFieldsAux s []

/-- Digit-string to number, `none` if empty or non-digit. -/
def parseNat : List Char → Option Nat
  | [] => none
  | [c] => if c.isDigit then some (c.toNat - '0'.toNat) else none
  | c :: rest =>
    if c.isDigit then
      (parseNat rest).map (fun n => (c.toNat - '0'.toNat) * 10 ^ rest.length + n)
    else none

/-- Python `int(s)` on a whitespace-free field: optional sign followed
by decimal digits, `ValueError` (`none`) otherwise. -/
def parseInt (s : List Char) : Option Int :=
  match s with
  | '-' :: rest => (parseNat rest).map (fun n => -(n : Int))
  | '+' :: rest => (parseNat rest).map (fun n => (n : Int))
  | _ => (parseNat s).map (fun n => (n : Int))

/-! ## `loadFasta` (Sequence Reader, lines 37-53) -/

/-- Python `s.startswith(">")` on a character list. -/
def startsGt : List Char → Bool
  | '>' :: _ => true
  | _ => false

/-- Whether a line is counted as a FASTA header by `loadFasta`:
starting with the record marker after stripping. -/
def headerLine (line : List Char) : Bool :=
  startsGt (stripChars line)

/-- One line of the `loadFasta` loop, acting on the state
`(n, seqid, seq)`: blank lines are skipped, a header line bumps the
record count and resets the identifier (marker characters removed, then
stripped), any other line extends the sequence. -/
def fastaStep (st : Nat × List Char × List Char) (line : List Char) :
    Nat × List Char × List Char :=
  let t := stripChars line
  if t.length = 0 then st
  else if startsGt t then (st.1 + 1, stripChars (t.filter (fun c => c ≠ '>')), st.2.2)
  else (st.1, st.2.1, st.2.2 ++ t)

/-- `loadFasta(lines)`: count header lines, collect the identifier from
the last header and the concatenation of all non-blank non-header
stripped lines; exit status 3 unless exactly one header was seen. -/
def loadFasta (lines : List (List Char)) : Except Nat (String × String) :=
  let st := lines.foldl fastaStep (0, [], [])
  if st.1 ≠ 1 then Except.error 3
  else Except.ok (String.mk st.2.1, String.mk st.2.2)

/-! ## `loadPairs` (Connectivity-Table Reader, lines 10-34) -/

/-- Result of handling one connectivity-table line: blank (skipped),
malformed (fewer than five whitespace fields or a non-integer position
field, an uncaught exception in the script), or a parsed record of
position, nucleotide symbol and paired-with index. -/
inductive LineResult where
  | blank : LineResult
  | bad : LineResult
  | record (x : Int) (sym : String) (y : Int) : LineResult
deriving DecidableEq, Repr

/-- Strip a connectivity-table line and split it on runs of whitespace,
extracting fields 1, 2 and 5 (`fields[0]`, `fields[1]`, `fields[4]`). -/
def parseLine (line : List Char) : LineResult :=
  let t := stripChars line
  if t.length = 0 then LineResult.blank
  else
    let fields := wsFields t
    match fields.get? 0, fields.get? 1, fields.get? 4 with
    | some f0, some f1, some f4 =>
      match parseInt f0, parseInt f4 with
      | some x, some y => LineResult.record x (String.mk f1) y
      | _, _ => LineResult.bad
    | _, _, _ => LineResult.bad

/-- Loop of `loadPairs` over the data lines: `seqn` accumulates the
seed sequence, `ps` the pair list, `us` the unpaired list, `pp` the
`pairedPos` set of paired-with indices already seen. -/
def loadPairsGo :
    List (List Char) → String → List (Int × Int) → List Int → Finset Int →
    Option (String × List (Int × Int) × List Int)
  | [], seqn, ps, us, _ => some (seqn, ps, us)
  | line :: rest, seqn, ps, us, pp =>
    match parseLine line with
    | LineResult.blank => loadPairsGo rest seqn ps us pp
    | LineResult.bad => none
    | LineResult.record x sym y =>
      if y = 0 then
        loadPairsGo rest (seqn ++ sym) ps (us ++ [x]) pp
      else
        let pp' := insert y pp
        if x ∈ pp' then loadPairsGo rest (seqn ++ sym) ps us pp'
        else loadPairsGo rest (seqn ++ sym) (ps ++ [(x, y)]) us pp'

/-- `loadPairs(lines)`: skip the header line, then fold the record lines.
Returns the seed sequence, the recorded pairs and the unpaired
positions, or `none` on a malformed record. -/
def loadPairs (lines : List (List Char)) :
    Option (String × List (Int × Int) × List Int) :=
  loadPairsGo (lines.drop 1) "" [] [] ∅

/-! ## `main` (lines 130-173) -/

/-- The two values of the `--format` flag. -/
inductive Format where
  | RNAstructure : Format
  | ViennaRNA : Format
deriving DecidableEq

/-- Observable outcome of a run of `main`: a `sys.exit` with a status
code, an uncaught exception, or the byte content written to the output
file.  Only `written` carries file content: on every failure path the
output file has not been opened. -/
inductive Outcome where
  | fail (code : Nat) : Outcome
  | crash : Outcome
  | written (content : String) : Outcome
deriving DecidableEq

/-- `main`, modelled over the file contents (`none` for a missing file),
the `--start`/`--end` integers and the format flag. -/
def mainModel (ct : Option (List (List Char))) (fa : Option (List (List Char)))
    (start stop : Int) (fmt : Format) : Outcome :=
  match ct with
  | none => Outcome.fail 1
  | some ctLines =>
    match fa with
    | none => Outcome.fail 1
    | some faLines =>
      match loadFasta faLines with
      | Except.error code => Outcome.fail code
      | Except.ok (seqid, fullSeq) =>
        let length := fullSeq.length
        match loadPairs ctLines with
        | none => Outcome.crash
        | some (seedSeq, pairs, unpaired) =>
          match checkPairing seedSeq.data pairs with
          | none => Outcome.crash
          | some (pairsFiltered, _) =>
            if (seedSeq.length : Int) ≠ stop - start then Outcome.fail 2
            else
              let adjusted := adjustPairs pairsFiltered unpaired start
              match fmt with
              | Format.RNAstructure =>
                Outcome.written (makeRNAstructureConstraint adjusted.1 adjusted.2 ++ "\n")
              | Format.ViennaRNA =>
                match makeViennaRNAConstraint adjusted.1 adjusted.2 length with
                | none => Outcome.crash
                | some const =>
                  Outcome.written (">" ++ seqid ++ "\n" ++ fullSeq ++ "\n" ++ const ++ "\n")

/-! ## Auxiliary definitions used by the theorems -/

/-- The nonzero paired-with field of every parsed record, in order. -/
def recordYsOf (lines : List (List Char)) : List Int :=
  lines.filterMap (fun line =>
    match parseLine line with
    | LineResult.record _ _ y => if y = 0 then none else some y
    | _ => none)

/-- Nonzero paired-with fields of the data lines of a table. -/
def recordYs (lines : List (List Char)) : List Int :=
  recordYsOf (lines.drop 1)

/-- The position a successful Python index resolves to (front for
nonnegative indices, wrapped from the back for negative ones). -/
def pyIdxVal (n : Nat) (i : Int) : Nat :=
  if 0 ≤ i then i.toNat else ((n : Int) + i).toNat

/-- One pair write of the Grammar B serializer, with Python indices
resolved against a buffer of length `L`. -/
def pairWrite (L : Nat) (c : List Char) (p : Int × Int) : List Char :=
  let q := if p.1 < p.2 then (p.1 - 1, p.2 - 1) else (p.2 - 1, p.1 - 1)
  (c.set (pyIdxVal L q.1) '(').set (pyIdxVal L q.2) ')'

/-- One unpaired write of the Grammar B serializer. -/
def ssWrite (L : Nat) (c : List Char) (p : Int) : List Char :=
  c.set (pyIdxVal L (p - 1)) 'x'

/-- Modelled from the spec's description of Grammar B: start from
`length` dots, write a left bracket at `min(x,y) - 1` and a right
bracket at `max(x,y) - 1` for each pair, then write the forced-unpaired
marker at `p - 1` for each unpaired position, in this order. -/
def viennaSpec (pairs : List (Int × Int)) (unpaired : List Int) (length : Nat) :
    List Char :=
  let base := List.replicate length '.'
  let afterPairs := pairs.foldl
    (fun c q => (c.set (min q.1 q.2 - 1).toNat '(').set (max q.1 q.2 - 1).toNat ')')
    base
  unpaired.foldl (fun c p => c.set (p - 1).toNat 'x') afterPairs

/-- Join a list of lines, terminating each with a newline. -/
def joinNl : List String → String
  | [] => ""
  | a :: as => a ++ "\n" ++ joinNl as

/-- Join a list of lines, preceding each with a newline. -/
def nlPre : List String → String
  | [] => ""
  | a :: as => "\n" ++ a ++ nlPre as

/-! ## Claim C1

The spec's precedence scenario expects `makeViennaRNAConstraint` on
full length 10, pairs `{(2,9)}`, unpaired `{9}` to return
`.(.......x`, with the unpaired marker at 0-based index 9.  The code
writes the unpaired marker at `ss - 1 = 8`, where it overwrites the
right bracket of the pair, so the actual output is `.(......x.`. -/

/-- C1 (counterexample): on the concrete Grammar B input (length 10,
pairs `{(2,9)}`, unpaired `{9}`) the serializer does not return the
claimed string `.(.......x`; it returns `.(......x.`. -/
theorem claim_C1_counterexample :
    makeViennaRNAConstraint [(2, 9)] [9] 10 ≠ some ".(.......x" ∧
    makeViennaRNAConstraint [(2, 9)] [9] 10 = some ".(......x." := by
  exact ⟨by decide, rfl⟩

/-- C1 (amended): for full-sequence length 10, pairs = {(2,9)},
unpaired = {9}, `makeViennaRNAConstraint` returns exactly the
10-character annotation string `.(......x.`: a left bracket at 0-based
index 1 for position 2 and the unpaired marker at 0-based index 8 for
position 9 (overwriting the right bracket the pair had put there), a
dot everywhere else. -/
theorem claim_C1 :
    makeViennaRNAConstraint [(2, 9)] [9] 10 = some ".(......x." ∧
    (".(......x." : String).length = 10 ∧
    ".(......x.".data[1]? = some '(' ∧
    ".(......x.".data[8]? = some 'x' := by
  exact ⟨rfl, rfl, rfl, rfl⟩

/-! ## Claim C9 -/

/-- C9: `adjustPairs` is total (it is a plain Lean function, defined
for every integer offset including zero and negative ones), shifting
every coordinate by the offset so that subtracting the offset recovers
the input exactly; lengths and order are preserved, as are pair
membership and the pair/unpaired distinction. -/
theorem claim_C9 (pairs : List (Int × Int)) (unpaired : List Int) (offset : Int) :
    ((adjustPairs pairs unpaired offset).1.map
        (fun q => (q.1 - offset, q.2 - offset)) = pairs) ∧
    ((adjustPairs pairs unpaired offset).2.map (fun p => p - offset) = unpaired) ∧
    ((adjustPairs pairs unpaired offset).1.length = pairs.length) ∧
    ((adjustPairs pairs unpaired offset).2.length = unpaired.length) ∧
    (∀ a b : Int,
      (a + offset, b + offset) ∈ (adjustPairs pairs unpaired offset).1 ↔
        (a, b) ∈ pairs) ∧
    (∀ p : Int,
      p + offset ∈ (adjustPairs pairs unpaired offset).2 ↔ p ∈ unpaired) := by
  refine ⟨?_, ?_, ?_, ?_, ?_, ?_⟩
  · have h : ((fun q : Int × Int => (q.1 - offset, q.2 - offset)) ∘
        fun p : Int × Int => (p.1 + offset, p.2 + offset)) = id := by
      funext q; simp
    simp [adjustPairs, List.map_map, h]
  · have h : ((fun p : Int => p - offset) ∘ fun ss : Int => ss + offset) = id := by
      funext q; simp
    simp [adjustPairs, List.map_map, h]
  · simp [adjustPairs]
  · simp [adjustPairs]
  · intro a b
    simp only [adjustPairs, List.mem_map, Prod.ext_iff]
    constructor
    · rintro ⟨q, hq, h1, h2⟩
      have ha : q.1 = a := by omega
      have hb : q.2 = b := by omega
      rw [← ha, ← hb]; exact hq
    · intro h
      exact ⟨(a, b), h, rfl, rfl⟩
  · intro p
    simp only [adjustPairs, List.mem_map]
    constructor
    · rintro ⟨q, hq, h⟩
      have : q = p := by omega
      rw [← this]; exact hq
    · intro h
      exact ⟨p, h, rfl⟩

/-! ## Claim C8 -/

/-- The first component of the `loadFasta` fold counts header lines. -/
theorem fastaFold_count (lines : List (List Char)) (st : Nat × List Char × List Char) :
    (lines.foldl fastaStep st).1 = st.1 + lines.countP headerLine := by
  induction lines generalizing st with
  | nil => simp
  | cons line rest ih =>
    rw [List.foldl_cons, ih, List.countP_cons]
    rcases hlen : (stripChars line).length with - | n
    · have hnil : stripChars line = [] := List.length_eq_zero.mp hlen
      simp [fastaStep, headerLine, hnil, startsGt]
    · have hne : (stripChars line).length ≠ 0 := by omega
      cases hh : startsGt (stripChars line) with
      | true => simp [fastaStep, headerLine, hne, hh]; omega
      | false => simp [fastaStep, headerLine, hne, hh]

/-- C8: `loadFasta` fails with the cardinality exit status (3, the only
failure it can signal) if and only if the number of header lines is not
exactly one; in particular a file with zero headers and a file with two
headers both fail. -/
theorem claim_C8 :
    (∀ lines : List (List Char),
      (loadFasta lines = Except.error 3 ↔ lines.countP headerLine ≠ 1)) ∧
    loadFasta ["ACGT".data] = Except.error 3 ∧
    loadFasta [">a".data, "AC".data, ">b".data, "GT".data] = Except.error 3 := by
  refine ⟨?_, by rfl, by rfl⟩
  intro lines
  have hc := fastaFold_count lines (0, [], [])
  by_cases h : lines.countP headerLine = 1
  · simp [loadFasta, hc, h]
  · simp [loadFasta, hc, h]

/-! ## Claim C4

The claim asserts that on every accepted input, every position appears
as the closing (second) side of at most one recorded pair.  That fails
on an asymmetric table where two records both name partner 3: the
reader accepts it and records both (1,3) and (2,3).  The invariant does
hold whenever no nonzero paired-with index occurs in more than one
record (in particular for the symmetric tables the format intends). -/

/-- The pairs appended by the `loadPairs` loop have closing sides drawn,
in order and without reuse of a record, from the nonzero paired-with
fields of the processed records. -/
theorem loadPairsGo_snd_sublist (lines : List (List Char)) (seqn : String)
    (ps : List (Int × Int)) (us : List Int) (pp : Finset Int)
    (res : String × List (Int × Int) × List Int)
    (h : loadPairsGo lines seqn ps us pp = some res) :
    ∃ extra, res.2.1 = ps ++ extra ∧
      (extra.map Prod.snd).Sublist (recordYsOf lines) := by
  induction lines generalizing seqn ps us pp with
  | nil =>
    simp only [loadPairsGo, Option.some.injEq] at h
    exact ⟨[], by simp [← h], by simp [recordYsOf]⟩
  | cons line rest ih =>
    simp only [loadPairsGo] at h
    cases hpl : parseLine line with
    | blank =>
      rw [hpl] at h
      obtain ⟨extra, he, hs⟩ := ih _ _ _ _ h
      exact ⟨extra, he, by simpa [recordYsOf, hpl] using hs⟩
    | bad => rw [hpl] at h; exact absurd h (by simp)
    | record x sym y =>
      rw [hpl] at h
      dsimp only at h
      by_cases hy : y = 0
      · rw [if_pos hy] at h
        obtain ⟨extra, he, hs⟩ := ih _ _ _ _ h
        exact ⟨extra, he, by simpa [recordYsOf, hpl, hy] using hs⟩
      · rw [if_neg hy] at h
        by_cases hx : x ∈ insert y pp
        · rw [if_pos hx] at h
          obtain ⟨extra, he, hs⟩ := ih _ _ _ _ h
          refine ⟨extra, he, ?_⟩
          simpa [recordYsOf, hpl, hy] using hs.cons y
        · rw [if_neg hx] at h
          obtain ⟨extra, he, hs⟩ := ih _ _ _ _ h
          refine ⟨(x, y) :: extra, by simp [he], ?_⟩
          simpa [recordYsOf, hpl, hy] using hs.cons₂ y

/-- C4 (counterexample): the asymmetric but accepted table whose two
records both name paired-with position 3 produces the pair list
[(1,3),(2,3)], in which position 3 appears as the closing side of two
pairs. -/
theorem claim_C4_counterexample :
    loadPairs ["n h".data, "1 A 1 1 3".data, "2 A 2 2 3".data] =
      some ("AA", [(1, 3), (2, 3)], []) ∧
    ¬ ([((1 : Int), (3 : Int)), (2, 3)].countP (fun q => q.2 == 3) ≤ 1) := by
  exact ⟨rfl, by decide⟩

/-- C4 (amended): for every connectivity-table input accepted by
`loadPairs` in which no nonzero paired-with index occurs in more than
one record, every position appears as the second (closing) component of
at most one pair in the returned pair list.  The reader records each
paired-with index as seen and adds (current position, paired-with
position) only if the current position was not already seen as a
paired-with target, so the closing sides are drawn from distinct
records. -/
theorem claim_C4 (lines : List (List Char)) (s : String)
    (ps : List (Int × Int)) (us : List Int)
    (h : loadPairs lines = some (s, ps, us)) (hnd : (recordYs lines).Nodup) :
    ∀ v : Int, ps.countP (fun q => q.2 == v) ≤ 1 := by
  obtain ⟨extra, he, hs⟩ := loadPairsGo_snd_sublist _ _ _ _ _ _ h
  intro v
  have hnd2 : (ps.map Prod.snd).Nodup := by
    have : ps = extra := by simpa using he
    rw [this]
    exact (hnd.sublist hs)
  have h1 : ps.countP (fun q => q.2 == v) = (ps.map Prod.snd).countP (fun x => x == v) := by
    rw [List.countP_map]; rfl
  rw [h1]
  exact List.nodup_iff_count_le_one.mp hnd2 v

/-- Witness for C4: the symmetric two-record table pairing positions 1
and 2 satisfies the distinctness hypothesis, and its single recorded
pair has each closing side at most once. -/
theorem claim_C4_witness :
    ([((1 : Int), (2 : Int))].countP (fun q => q.2 == 2) ≤ 1) :=
  claim_C4 ["h".data, "1 A 1 1 2".data, "2 A 2 2 1".data] "AA" [(1, 2)] []
    (by rfl) (by decide) 2

/-! ## Claims C5 and C6 -/

/-- Core invariant of the `checkPairing` loop: on success, every kept
pair came from the accumulator or the remaining input, and the counter
has grown by exactly the number of non-canonical entries. -/
theorem checkPairingAux_spec (seq : List Char) (l : List (Int × Int))
    (acc : List (Int × Int)) (n : Nat) (r : List (Int × Int) × Nat)
    (h : checkPairingAux seq l acc n = some r) :
    (∀ p ∈ r.1, p ∈ acc ∨ p ∈ l) ∧
    r.2 = n + l.countP (fun p => ! keptPair seq p) := by
  induction l generalizing acc n with
  | nil =>
    simp only [checkPairingAux, Option.some.injEq] at h
    subst h
    exact ⟨fun p hp => Or.inl hp, by simp⟩
  | cons p rest ih =>
    simp only [checkPairingAux] at h
    cases h1 : pyGet seq (p.1 - 1) with
    | none => rw [h1] at h; exact absurd h (by simp)
    | some a =>
      rw [h1] at h
      cases h2 : pyGet seq (p.2 - 1) with
      | none => rw [h2] at h; exact absurd h (by simp)
      | some b =>
        rw [h2] at h
        dsimp only at h
        have hk : keptPair seq p = decide ((a, b) ∈ canonical) := by
          unfold keptPair; rw [h1, h2]
        by_cases hc : (a, b) ∈ canonical
        · rw [if_pos hc] at h
          obtain ⟨hsub, hcount⟩ := ih _ _ h
          refine ⟨fun q hq => ?_, ?_⟩
          · rcases hsub q hq with hq' | hq'
            · by_cases hpa : p ∈ acc
              · rw [if_pos hpa] at hq'; exact Or.inl hq'
              · rw [if_neg hpa] at hq'
                rcases List.mem_append.mp hq' with hq'' | hq''
                · exact Or.inl hq''
                · have hqeq : q = p := List.mem_singleton.mp hq''
                  exact Or.inr (by rw [hqeq]; exact List.mem_cons_self p rest)
            · exact Or.inr (List.mem_cons_of_mem p hq')
          · rw [hcount, List.countP_cons]
            simp [hk, hc]
        · rw [if_neg hc] at h
          obtain ⟨hsub, hcount⟩ := ih _ _ h
          refine ⟨fun q hq => ?_, ?_⟩
          · rcases hsub q hq with hq' | hq'
            · exact Or.inl hq'
            · exact Or.inr (List.mem_cons_of_mem p hq')
          · rw [hcount, List.countP_cons]
            simp [hk, hc]
            omega

/-- Membership in the filtered collection of `checkPairing`: a pair is
kept exactly when it was already accumulated or occurs in the input
with a canonical symbol pair. -/
theorem checkPairingAux_mem (seq : List Char) (l : List (Int × Int))
    (acc : List (Int × Int)) (n : Nat) (r : List (Int × Int) × Nat)
    (h : checkPairingAux seq l acc n = some r) (q : Int × Int) :
    q ∈ r.1 ↔ q ∈ acc ∨ (q ∈ l ∧ keptPair seq q = true) := by
  induction l generalizing acc n with
  | nil =>
    simp only [checkPairingAux, Option.some.injEq] at h
    subst h
    simp
  | cons p rest ih =>
    simp only [checkPairingAux] at h
    cases h1 : pyGet seq (p.1 - 1) with
    | none => rw [h1] at h; exact absurd h (by simp)
    | some a =>
      rw [h1] at h
      cases h2 : pyGet seq (p.2 - 1) with
      | none => rw [h2] at h; exact absurd h (by simp)
      | some b =>
        rw [h2] at h
        dsimp only at h
        have hk : keptPair seq p = decide ((a, b) ∈ canonical) := by
          unfold keptPair; rw [h1, h2]
        by_cases hc : (a, b) ∈ canonical
        · rw [if_pos hc] at h
          rw [ih _ _ h]
          by_cases hqp : q = p
          · subst hqp
            have hq : keptPair seq q = true := by rw [hk]; simpa using hc
            by_cases hpa : q ∈ acc
            · simp [hpa, hq]
            · simp [hpa, hq]
          · by_cases hpa : p ∈ acc
            · simp [hpa, hqp]
            · simp [hpa, hqp]
        · rw [if_neg hc] at h
          rw [ih _ _ h]
          by_cases hqp : q = p
          · subst hqp
            have hq : keptPair seq q = false := by rw [hk]; simpa using hc
            simp [hq]
          · simp [hqp]

/-- On in-range indices `checkPairing`'s character lookups succeed. -/
theorem pyGet_ofRange (s : List Char) (i : Int) (h0 : 0 ≤ i)
    (h1 : i < (s.length : Int)) : ∃ c, pyGet s i = some c := by
  have hlt : i.toNat < s.length := by omega
  refine ⟨s[i.toNat], ?_⟩
  unfold pyGet pyIndex
  rw [if_pos ⟨h0, h1⟩]
  simp [List.getElem?_eq_getElem hlt]

/-- `checkPairing` terminates with a result when every lookup succeeds. -/
theorem checkPairingAux_total (seq : List Char) (l : List (Int × Int))
    (acc : List (Int × Int)) (n : Nat)
    (h : ∀ q ∈ l, (∃ a, pyGet seq (q.1 - 1) = some a) ∧
      (∃ b, pyGet seq (q.2 - 1) = some b)) :
    ∃ r, checkPairingAux seq l acc n = some r := by
  induction l generalizing acc n with
  | nil => exact ⟨(acc, n), rfl⟩
  | cons p rest ih =>
    obtain ⟨⟨a, ha⟩, ⟨b, hb⟩⟩ := h p (List.mem_cons_self p rest)
    have hrest : ∀ q ∈ rest, (∃ a, pyGet seq (q.1 - 1) = some a) ∧
        (∃ b, pyGet seq (q.2 - 1) = some b) :=
      fun q hq => h q (List.mem_cons_of_mem p hq)
    simp only [checkPairingAux]
    rw [ha, hb]
    dsimp only
    by_cases hc : (a, b) ∈ canonical
    · rw [if_pos hc]; exact ih _ _ hrest
    · rw [if_neg hc]; exact ih _ _ hrest

/-- C5: whenever `checkPairing` returns, the filtered collection is a
subset of the raw pair list (no pair is ever added), and the reported
diagnostic count equals the number of raw entries dropped as
non-canonical. -/
theorem claim_C5 (seq : List Char) (pairs : List (Int × Int))
    (r : List (Int × Int) × Nat) (h : checkPairing seq pairs = some r) :
    (∀ p ∈ r.1, p ∈ pairs) ∧
    r.2 = pairs.countP (fun p => ! keptPair seq p) := by
  obtain ⟨hsub, hcount⟩ := checkPairingAux_spec seq pairs [] 0 r h
  refine ⟨fun p hp => ?_, by simpa using hcount⟩
  rcases hsub p hp with h' | h'
  · exact absurd h' (List.not_mem_nil p)
  · exact h'

/-- Witness for C5 on sequence AACCGG with the single raw pair (1,2):
one entry was dropped and the reported count is 1. -/
theorem claim_C5_witness :
    (1 : Nat) = [((1 : Int), (2 : Int))].countP
      (fun p => ! keptPair "AACCGG".data p) :=
  (claim_C5 "AACCGG".data [(1, 2)] ([], 1) (by rfl)).2

/-- C6: for pairs with both coordinates inside 1..len(sequence),
`checkPairing` keeps a pair exactly when it occurs in the raw list and
its looked-up symbol pair is canonical; the canonical set is precisely
both orientations of A-U, A-T, C-G, G-U and G-T; and on sequence
AACCGG the pair (1,2) is rejected with dropped count 1 and an empty
returned collection. -/
theorem claim_C6 :
    (∀ (seq : List Char) (pairs : List (Int × Int)) (x y : Int),
      (∀ q ∈ pairs, 1 ≤ q.1 ∧ q.1 ≤ (seq.length : Int) ∧
        1 ≤ q.2 ∧ q.2 ≤ (seq.length : Int)) →
      ∃ r, checkPairing seq pairs = some r ∧
        ((x, y) ∈ r.1 ↔ ((x, y) ∈ pairs ∧ keptPair seq (x, y) = true))) ∧
    canonical.Perm [('A','U'), ('U','A'), ('A','T'), ('T','A'), ('C','G'),
      ('G','C'), ('G','U'), ('U','G'), ('G','T'), ('T','G')] ∧
    checkPairing "AACCGG".data [(1, 2)] = some ([], 1) ∧
    keptPair "AACCGG".data (1, 2) = false := by
  refine ⟨?_, by decide, by rfl, by rfl⟩
  intro seq pairs x y hrange
  have htot : ∀ q ∈ pairs, (∃ a, pyGet seq (q.1 - 1) = some a) ∧
      (∃ b, pyGet seq (q.2 - 1) = some b) := by
    intro q hq
    obtain ⟨ha1, ha2, hb1, hb2⟩ := hrange q hq
    exact ⟨pyGet_ofRange seq (q.1 - 1) (by omega) (by omega),
      pyGet_ofRange seq (q.2 - 1) (by omega) (by omega)⟩
  obtain ⟨r, hr⟩ := checkPairingAux_total seq pairs [] 0 htot
  refine ⟨r, hr, ?_⟩
  rw [checkPairingAux_mem seq pairs [] 0 r hr (x, y)]
  simp

/-- Witness for C6: on sequence AU the in-range pair (1,2) is kept. -/
theorem claim_C6_witness :
    ∃ r, checkPairing "AU".data [(1, 2)] = some r ∧
      (((1 : Int), (2 : Int)) ∈ r.1 ↔
        (((1 : Int), (2 : Int)) ∈ [((1 : Int), (2 : Int))] ∧
          keptPair "AU".data (1, 2) = true)) :=
  claim_C6.1 "AU".data [(1, 2)] 1 2 (by decide)

/-! ## Claims C2 and C10 -/

/-- A Python index in `[-n, n)` resolves successfully, to a position
below `n`. -/
theorem pyIndex_ofRange (n : Nat) (i : Int) (h0 : -(n : Int) ≤ i)
    (h1 : i < (n : Int)) :
    pyIndex n i = some (pyIdxVal n i) ∧ pyIdxVal n i < n := by
  unfold pyIndex pyIdxVal
  by_cases hp : 0 ≤ i
  · rw [if_pos ⟨hp, h1⟩, if_pos hp]
    exact ⟨rfl, by omega⟩
  · have hneg : i < 0 := by omega
    rw [if_neg (fun hh => hp hh.1), if_pos ⟨h0, hneg⟩, if_neg hp]
    exact ⟨rfl, by omega⟩

/-- A Python write at an index in `[-len, len)` succeeds and lands at
the resolved position. -/
theorem pySet_ofRange (s : List Char) (i : Int) (c : Char)
    (h0 : -(s.length : Int) ≤ i) (h1 : i < (s.length : Int)) :
    pySet s i c = some (s.set (pyIdxVal s.length i) c) := by
  unfold pySet
  rw [(pyIndex_ofRange s.length i h0 h1).1]
  rfl

/-- One step of the pair loop, when both coordinates lie in `(-L, L]`:
the two bracket writes succeed and amount to `pairWrite`. -/
theorem applyPairs_cons_eq (L : Nat) (c : List Char) (hc : c.length = L)
    (p : Int × Int) (rest : List (Int × Int))
    (hx1 : -(L : Int) < p.1) (hx2 : p.1 ≤ (L : Int))
    (hy1 : -(L : Int) < p.2) (hy2 : p.2 ≤ (L : Int)) :
    applyPairs (p :: rest) c = applyPairs rest (pairWrite L c p) := by
  subst hc
  simp only [applyPairs, pairWrite]
  by_cases hlt : p.1 < p.2
  · simp only [if_pos hlt]
    rw [pySet_ofRange c (p.1 - 1) '(' (by omega) (by omega)]
    dsimp only
    rw [pySet_ofRange _ (p.2 - 1) ')' (by simp; omega) (by simp; omega)]
    dsimp only
    rw [List.length_set]
  · simp only [if_neg hlt]
    rw [pySet_ofRange c (p.2 - 1) '(' (by omega) (by omega)]
    dsimp only
    rw [pySet_ofRange _ (p.1 - 1) ')' (by simp; omega) (by simp; omega)]
    dsimp only
    rw [List.length_set]

/-- The pair loop, when every coordinate lies in `(-L, L]`, succeeds
and equals the fold of `pairWrite`, preserving the buffer length. -/
theorem applyPairs_ofRange (L : Nat) (ps : List (Int × Int)) (c : List Char)
    (hc : c.length = L)
    (h : ∀ q ∈ ps, -(L : Int) < q.1 ∧ q.1 ≤ (L : Int) ∧
      -(L : Int) < q.2 ∧ q.2 ≤ (L : Int)) :
    applyPairs ps c = some (ps.foldl (pairWrite L) c) ∧
    (ps.foldl (pairWrite L) c).length = L := by
  induction ps generalizing c with
  | nil => exact ⟨rfl, hc⟩
  | cons p rest ih =>
    obtain ⟨hx1, hx2, hy1, hy2⟩ := h p (List.mem_cons_self p rest)
    have hlen : (pairWrite L c p).length = L := by simp [pairWrite, hc]
    rw [applyPairs_cons_eq L c hc p rest hx1 hx2 hy1 hy2, List.foldl_cons]
    exact ih (pairWrite L c p) hlen (fun q hq => h q (List.mem_cons_of_mem p hq))

/-- One step of the unpaired loop, when the position lies in `(-L, L]`. -/
theorem applyUnpaired_cons_eq (L : Nat) (c : List Char) (hc : c.length = L)
    (p : Int) (rest : List Int) (h1 : -(L : Int) < p) (h2 : p ≤ (L : Int)) :
    applyUnpaired (p :: rest) c = applyUnpaired rest (ssWrite L c p) := by
  subst hc
  simp only [applyUnpaired, ssWrite]
  rw [pySet_ofRange c (p - 1) 'x' (by omega) (by omega)]

/-- The unpaired loop, when every position lies in `(-L, L]`, succeeds
and equals the fold of `ssWrite`, preserving the buffer length. -/
theorem applyUnpaired_ofRange (L : Nat) (us : List Int) (c : List Char)
    (hc : c.length = L)
    (h : ∀ p ∈ us, -(L : Int) < p ∧ p ≤ (L : Int)) :
    applyUnpaired us c = some (us.foldl (ssWrite L) c) ∧
    (us.foldl (ssWrite L) c).length = L := by
  induction us generalizing c with
  | nil => exact ⟨rfl, hc⟩
  | cons p rest ih =>
    obtain ⟨h1, h2⟩ := h p (List.mem_cons_self p rest)
    have hlen : (ssWrite L c p).length = L := by simp [ssWrite, hc]
    rw [applyUnpaired_cons_eq L c hc p rest h1 h2, List.foldl_cons]
    exact ih (ssWrite L c p) hlen (fun q hq => h q (List.mem_cons_of_mem p hq))

/-- Every step of the unpaired loop writes the same marker, so a marker
already present at some position survives the rest of the loop. -/
theorem foldl_ssWrite_preserve (L : Nat) (us : List Int) (cs : List Char)
    (i : Nat) (h : cs[i]? = some 'x') :
    (us.foldl (ssWrite L) cs)[i]? = some 'x' := by
  induction us generalizing cs with
  | nil => exact h
  | cons q rest ih =>
    rw [List.foldl_cons]
    refine ih (ssWrite L cs q) ?_
    unfold ssWrite
    rw [List.getElem?_set]
    split_ifs with hj hlt
    · rfl
    · subst hj; exact absurd h (by simp [List.getElem?_eq_none (le_of_not_lt hlt)])
    · exact h

/-- After the unpaired loop, every listed position whose resolved index
is inside the buffer holds the forced-unpaired marker. -/
theorem foldl_ssWrite_allx (L : Nat) (us : List Int) (c : List Char)
    (hc : c.length = L) (p : Int) (hp : p ∈ us)
    (hidx : pyIdxVal L (p - 1) < L) :
    (us.foldl (ssWrite L) c)[pyIdxVal L (p - 1)]? = some 'x' := by
  induction us generalizing c with
  | nil => exact absurd hp (List.not_mem_nil p)
  | cons q rest ih =>
    rw [List.foldl_cons]
    rcases List.mem_cons.mp hp with hq | hq
    · subst hq
      refine foldl_ssWrite_preserve L rest _ _ ?_
      unfold ssWrite
      rw [List.getElem?_set, if_pos rfl, if_pos (by rw [hc]; exact hidx)]
    · exact ih (ssWrite L c q) (by simp [ssWrite, hc]) hq

/-- C10: when every position lies in `(-L, L]`, `makeViennaRNAConstraint`
returns without error with a result of length exactly `L`; the marker of
a non-positive unpaired position `p` is silently written at offset
`p - 1` from the end of the string, i.e. at 0-based index `L + p - 1`. -/
theorem claim_C10 (pairs : List (Int × Int)) (unpaired : List Int) (L : Nat)
    (hp : ∀ q ∈ pairs, -(L : Int) < q.1 ∧ q.1 ≤ (L : Int) ∧
      -(L : Int) < q.2 ∧ q.2 ≤ (L : Int))
    (hu : ∀ p ∈ unpaired, -(L : Int) < p ∧ p ≤ (L : Int)) :
    ∃ s : String, makeViennaRNAConstraint pairs unpaired L = some s ∧
      s.length = L ∧
      ∀ p ∈ unpaired, p ≤ 0 →
        s.data[((L : Int) + p - 1).toNat]? = some 'x' := by
  have hbase : (List.replicate L '.').length = L := by simp
  obtain ⟨h1, hlen1⟩ := applyPairs_ofRange L pairs _ hbase hp
  obtain ⟨h2, hlen2⟩ := applyUnpaired_ofRange L unpaired _ hlen1 hu
  refine ⟨String.mk (unpaired.foldl (ssWrite L)
    (pairs.foldl (pairWrite L) (List.replicate L '.'))), ?_, hlen2, ?_⟩
  · unfold makeViennaRNAConstraint
    rw [h1]
    dsimp only [Option.bind]
    rw [h2]
    rfl
  · intro p hpin hple
    obtain ⟨hl, _⟩ := hu p hpin
    have hidx : pyIdxVal L (p - 1) < L := by
      unfold pyIdxVal
      rw [if_neg (by omega)]
      omega
    have hx := foldl_ssWrite_allx L unpaired _ hlen1 p hpin hidx
    have heq : ((L : Int) + p - 1).toNat = pyIdxVal L (p - 1) := by
      unfold pyIdxVal
      rw [if_neg (by omega)]
      congr 1
      ring
    rw [heq]
    exact hx

/-- Witness for C10: length 4, pair (-1,2), unpaired position 0; the
serializer succeeds, returns a 4-character string, and the marker of
position 0 sits at index 3 (offset -1 from the end). -/
theorem claim_C10_witness :
    ∃ s : String, makeViennaRNAConstraint [(-1, 2)] [0] 4 = some s ∧
      s.length = 4 ∧
      ∀ p ∈ ([0] : List Int), p ≤ 0 →
        s.data[((4 : Int) + p - 1).toNat]? = some 'x' :=
  claim_C10 [(-1, 2)] [0] 4 (by decide) (by decide)

/-- C2: with all positions inside `1..L`, `makeViennaRNAConstraint`
computes exactly the spec's description of Grammar B — a string of `L`
dots with a left bracket at `min(x,y)-1`, a right bracket at
`max(x,y)-1` for every pair (in list order), and the forced-unpaired
marker at `p-1` for every unpaired position, written after all pair
markers — so every unpaired position ends up marked `x`, even when it
is also listed in a pair. -/
theorem claim_C2 (pairs : List (Int × Int)) (unpaired : List Int) (L : Nat)
    (hp : ∀ q ∈ pairs, 1 ≤ q.1 ∧ q.1 ≤ (L : Int) ∧ 1 ≤ q.2 ∧ q.2 ≤ (L : Int))
    (hu : ∀ p ∈ unpaired, 1 ≤ p ∧ p ≤ (L : Int)) :
    makeViennaRNAConstraint pairs unpaired L =
      some (String.mk (viennaSpec pairs unpaired L)) ∧
    ∀ p ∈ unpaired, (viennaSpec pairs unpaired L)[(p - 1).toNat]? = some 'x' := by
  have hp' : ∀ q ∈ pairs, -(L : Int) < q.1 ∧ q.1 ≤ (L : Int) ∧
      -(L : Int) < q.2 ∧ q.2 ≤ (L : Int) := by
    intro q hq
    obtain ⟨a1, a2, b1, b2⟩ := hp q hq
    exact ⟨by omega, a2, by omega, b2⟩
  have hu' : ∀ p ∈ unpaired, -(L : Int) < p ∧ p ≤ (L : Int) := by
    intro p hq
    obtain ⟨a1, a2⟩ := hu p hq
    exact ⟨by omega, a2⟩
  have hbase : (List.replicate L '.').length = L := by simp
  obtain ⟨h1, hlen1⟩ := applyPairs_ofRange L pairs _ hbase hp'
  obtain ⟨h2, hlen2⟩ := applyUnpaired_ofRange L unpaired _ hlen1 hu'
  have hfold1 : pairs.foldl (pairWrite L) (List.replicate L '.') =
      pairs.foldl
        (fun c q => (c.set (min q.1 q.2 - 1).toNat '(').set
          (max q.1 q.2 - 1).toNat ')')
        (List.replicate L '.') := by
    refine List.foldl_ext _ _ _ ?_
    intro c q hq
    obtain ⟨a1, a2, b1, b2⟩ := hp q hq
    by_cases hlt : q.1 < q.2
    · have hmin : min q.1 q.2 = q.1 := min_eq_left hlt.le
      have hmax : max q.1 q.2 = q.2 := max_eq_right hlt.le
      simp only [pairWrite, if_pos hlt, hmin, hmax, pyIdxVal,
        if_pos (by omega : (0 : Int) ≤ q.1 - 1),
        if_pos (by omega : (0 : Int) ≤ q.2 - 1)]
    · have hle : q.2 ≤ q.1 := le_of_not_lt hlt
      have hmin : min q.1 q.2 = q.2 := min_eq_right hle
      have hmax : max q.1 q.2 = q.1 := max_eq_left hle
      simp only [pairWrite, if_neg hlt, hmin, hmax, pyIdxVal,
        if_pos (by omega : (0 : Int) ≤ q.1 - 1),
        if_pos (by omega : (0 : Int) ≤ q.2 - 1)]
  have hfold2 : ∀ c : List Char, unpaired.foldl (ssWrite L) c =
      unpaired.foldl (fun c p => c.set (p - 1).toNat 'x') c := by
    intro c
    refine List.foldl_ext _ _ _ ?_
    intro c' p hq
    obtain ⟨a1, _⟩ := hu p hq
    simp only [ssWrite, pyIdxVal, if_pos (by omega : (0 : Int) ≤ p - 1)]
  have hspec : viennaSpec pairs unpaired L =
      unpaired.foldl (ssWrite L) (pairs.foldl (pairWrite L) (List.replicate L '.')) := by
    simp only [viennaSpec]
    rw [hfold1, hfold2]
  constructor
  · unfold makeViennaRNAConstraint
    rw [h1]
    dsimp only [Option.bind]
    rw [h2, hspec]
    rfl
  · intro p hpin
    obtain ⟨a1, _⟩ := hu p hpin
    have hidx : pyIdxVal L (p - 1) < L := by
      unfold pyIdxVal
      rw [if_pos (by omega : (0 : Int) ≤ p - 1)]
      omega
    have hx := foldl_ssWrite_allx L unpaired _ hlen1 p hpin hidx
    have heq : (p - 1).toNat = pyIdxVal L (p - 1) := by
      unfold pyIdxVal
      rw [if_pos (by omega : (0 : Int) ≤ p - 1)]
    rw [hspec, heq]
    exact hx

/-- Witness for C2 on the precedence scenario: length 10, pair (2,9),
unpaired position 9; the serializer result matches the spec fold and
marks position 9 (0-based index 8) unpaired. -/
theorem claim_C2_witness :
    makeViennaRNAConstraint [(2, 9)] [9] 10 =
      some (String.mk (viennaSpec [(2, 9)] [9] 10)) ∧
    (viennaSpec [(2, 9)] [9] 10)[((9 : Int) - 1).toNat]? = some 'x' :=
  ⟨(claim_C2 [(2, 9)] [9] 10 (by decide) (by decide)).1,
   (claim_C2 [(2, 9)] [9] 10 (by decide) (by decide)).2 9 (by decide)⟩

/-! ## Claim C3 -/

/-- The unpaired-section loop of Grammar A appends one
newline-terminated line per position. -/
theorem foldl_int_lines (l : List Int) (c0 : String) :
    l.foldl (fun c ss => c ++ toString ss ++ "\n") c0 =
    c0 ++ joinNl (l.map (fun ss => toString ss)) := by
  induction l generalizing c0 with
  | nil => simp [joinNl]
  | cons a as ih =>
    rw [List.foldl_cons, ih]
    simp [joinNl, String.append_assoc]

/-- The pairs-section loop of Grammar A appends one newline-terminated
line per pair. -/
theorem foldl_pair_lines (l : List (Int × Int)) (c0 : String) :
    l.foldl (fun c p => c ++ toString p.1 ++ " " ++ toString p.2 ++ "\n") c0 =
    c0 ++ joinNl (l.map (fun p => toString p.1 ++ " " ++ toString p.2)) := by
  induction l generalizing c0 with
  | nil => simp [joinNl]
  | cons a as ih =>
    rw [List.foldl_cons, ih]
    simp [joinNl, String.append_assoc]

/-- The worker of `String.intercalate` prepends the separator to every
remaining line. -/
theorem intercalate_go_nlPre (acc : String) (l : List String) :
    String.intercalate.go acc "\n" l = acc ++ nlPre l := by
  induction l generalizing acc with
  | nil => simp [String.intercalate.go, nlPre]
  | cons a as ih => simp [String.intercalate.go, nlPre, ih, String.append_assoc]

/-- `String.intercalate "\n"` on a nonempty line list. -/
theorem intercalate_cons_nlPre (a : String) (l : List String) :
    String.intercalate "\n" (a :: l) = a ++ nlPre l :=
  intercalate_go_nlPre a l

/-- `nlPre` distributes over list append. -/
theorem nlPre_append (l1 l2 : List String) :
    nlPre (l1 ++ l2) = nlPre l1 ++ nlPre l2 := by
  induction l1 with
  | nil => simp [nlPre]
  | cons a as ih => simp [nlPre, ih, String.append_assoc]

/-- Shifting the newline of a block boundary from the right of a
newline-prefixed block turns it into a newline-terminated block. -/
theorem nlPre_join (l : List String) (x : String) :
    nlPre l ++ ("\n" ++ x) = "\n" ++ (joinNl l ++ x) := by
  induction l generalizing x with
  | nil => simp [nlPre, joinNl]
  | cons a as ih => simp only [nlPre, joinNl, String.append_assoc, ih]

/-- C3: `makeRNAstructureConstraint` returns exactly the text whose
lines are: `DS:`, `-1`, `SS:`, one line per unpaired position in list
order, `-1`, `Mod:`, `-1`, `Pairs:`, one line `x y` per pair in list
order, `-1 -1`, `FMN:`, `-1`, `Forbids:`, and a final `-1 -1` with no
trailing newline; in particular for pairs [(5,12)], unpaired [3,7] the
SS block lists 3 then 7 then -1 and the Pairs block lists `5 12` then
`-1 -1`. -/
theorem claim_C3 :
    (∀ (pairs : List (Int × Int)) (unpaired : List Int),
      makeRNAstructureConstraint pairs unpaired =
        String.intercalate "\n"
          (["DS:", "-1", "SS:"] ++ unpaired.map (fun ss => toString ss) ++
           ["-1", "Mod:", "-1", "Pairs:"] ++
           pairs.map (fun p => toString p.1 ++ " " ++ toString p.2) ++
           ["-1 -1", "FMN:", "-1", "Forbids:", "-1 -1"])) ∧
    makeRNAstructureConstraint [(5, 12)] [3, 7] =
      "DS:\n-1\nSS:\n3\n7\n-1\nMod:\n-1\nPairs:\n5 12\n-1 -1\nFMN:\n-1\nForbids:\n-1 -1" := by
  refine ⟨?_, by rfl⟩
  intro pairs unpaired
  have hr : String.intercalate "\n"
      (["DS:", "-1", "SS:"] ++ unpaired.map (fun ss => toString ss) ++
       ["-1", "Mod:", "-1", "Pairs:"] ++
       pairs.map (fun p => toString p.1 ++ " " ++ toString p.2) ++
       ["-1 -1", "FMN:", "-1", "Forbids:", "-1 -1"]) =
      "DS:" ++ nlPre (["-1", "SS:"] ++
        unpaired.map (fun ss => toString ss) ++
        ["-1", "Mod:", "-1", "Pairs:"] ++
        pairs.map (fun p => toString p.1 ++ " " ++ toString p.2) ++
        ["-1 -1", "FMN:", "-1", "Forbids:", "-1 -1"]) :=
    intercalate_cons_nlPre _ _
  rw [hr, nlPre_append, nlPre_append, nlPre_append, nlPre_append]
  simp only [String.append_assoc]
  rw [show nlPre ["-1 -1", "FMN:", "-1", "Forbids:", "-1 -1"] =
      "\n" ++ "-1 -1\nFMN:\n-1\nForbids:\n-1 -1" from rfl,
    nlPre_join, nlPre_join, nlPre_join, nlPre_join]
  simp only [makeRNAstructureConstraint]
  rw [foldl_int_lines, foldl_pair_lines]
  simp only [String.append_assoc]
  rfl

/-! ## Claim C7

The claim asserts that a seed-length mismatch always ends the run with
the dedicated exit status (2), before any output is written.  The exit
does happen before the output file is opened; but `checkPairing` runs
before the length check, so a table whose paired-with index falls
outside the seed sequence crashes with an uncaught IndexError instead
of exiting with status 2, even when the length mismatch is present. -/

/-- C7 (counterexample): the accepted one-record table pairing position
1 with the out-of-range position 5 has seed length 1 ≠ 3 - 0, yet the
run ends in the `checkPairing` crash, not in the length-mismatch exit
status 2. -/
theorem claim_C7_counterexample :
    loadPairs ["h".data, "1 A 1 1 5".data] = some ("A", [(1, 5)], []) ∧
    (("A" : String).length : Int) ≠ 3 - 0 ∧
    mainModel (some ["h".data, "1 A 1 1 5".data])
      (some [">id".data, "ACGU".data]) 0 3 Format.RNAstructure =
      Outcome.crash ∧
    Outcome.crash ≠ Outcome.fail 2 := by
  exact ⟨rfl, by decide, by rfl, by decide⟩

/-- C7 (amended): whenever the stages that run before the length check
succeed (the sequence file loads, the table parses, and every pair
survives the validator's lookups), a seed length different from
`end - start` makes the pipeline stop with the dedicated exit status 2;
the failing outcome carries no file content, the output file not having
been opened. -/
theorem claim_C7 (ctLines faLines : List (List Char)) (start stop : Int)
    (fmt : Format) (seqid fullSeq seedSeq : String) (ps : List (Int × Int))
    (us : List Int) (r : List (Int × Int) × Nat)
    (hfa : loadFasta faLines = Except.ok (seqid, fullSeq))
    (hct : loadPairs ctLines = some (seedSeq, ps, us))
    (hck : checkPairing seedSeq.data ps = some r)
    (hlen : (seedSeq.length : Int) ≠ stop - start) :
    mainModel (some ctLines) (some faLines) start stop fmt = Outcome.fail 2 := by
  obtain ⟨fp, n⟩ := r
  simp only [mainModel, hfa, hct, hck]
  rw [if_pos hlen]

/-- Witness for C7: a one-position unpaired table of seed length 1
against boundaries 0..3 exits with status 2. -/
theorem claim_C7_witness :
    mainModel (some ["h".data, "1 A 1 1 0".data])
      (some [">id".data, "ACGU".data]) 0 3 Format.RNAstructure =
      Outcome.fail 2 :=
  claim_C7 ["h".data, "1 A 1 1 0".data] [">id".data, "ACGU".data] 0 3
    Format.RNAstructure "id" "ACGU" "A" [] [1] ([], 0)
    (by rfl) (by rfl) (by rfl) (by decide)

end MakeConstraint
